import Mathlib

/-!
Verification of the libws WebSocket protocol engine specification.

The repository's own sources provide the client read loop
(src/src/ws_client_lib.c, function ws_client_run); the protocol-engine
components (masking, frame codec, UTF-8 validation, reassembly, control
frame handling, connection state machine) are declared in headers and
described by the specification but their implementation files are not
present, so those components are modelled from the specification text.
-/

namespace LibWS

/-- Modelled from the spec: the Masking Engine applies the 4-byte XOR mask,
XORing payload byte i with key byte (i mod 4).  Helper: mask one byte. -/
def maskByte (key : List Nat) (i b : Nat) : Nat :=
  b ^^^ key.getD (i % 4) 0

/-- Modelled from the spec: masks a payload starting from byte index i. -/
def maskApplyAux (key : List Nat) : Nat → List Nat → List Nat
  | _, [] => []
  | i, b :: rest => maskByte key i b :: maskApplyAux key (i + 1) rest

/-- Modelled from the spec: the Masking Engine operation apply(key, payload),
which XORs each payload byte with key bytes cycling with period 4. -/
def maskApply (key payload : List Nat) : List Nat :=
  maskApplyAux key 0 payload

theorem maskApplyAux_involutive (key : List Nat) (i : Nat) (l : List Nat) :
    maskApplyAux key i (maskApplyAux key i l) = l := by
  induction l generalizing i with
  | nil => rfl
  | cons b rest ih =>
    simp only [maskApplyAux, maskByte, Nat.xor_cancel_right, ih]

theorem maskApplyAux_length (key : List Nat) (i : Nat) (l : List Nat) :
    (maskApplyAux key i l).length = l.length := by
  induction l generalizing i with
  | nil => rfl
  | cons b rest ih => simp [maskApplyAux, ih]

theorem maskApply_length (key l : List Nat) :
    (maskApply key l).length = l.length :=
  maskApplyAux_length key 0 l

theorem maskApplyAux_getD (key : List Nat) (i : Nat) (l : List Nat) (j : Nat)
    (hj : j < l.length) :
    (maskApplyAux key i l).getD j 0 = l.getD j 0 ^^^ key.getD ((i + j) % 4) 0 := by
  induction l generalizing i j with
  | nil => simp at hj
  | cons b rest ih =>
    cases j with
    | zero => simp [maskApplyAux, maskByte]
    | succ j' =>
      simp only [maskApplyAux, List.getD_cons_succ]
      rw [ih (i + 1) j' (by simpa using hj)]
      ring_nf

/-- C2: masking is an involution, and a single application XORs payload
byte i with key byte (i mod 4). -/
theorem mask_involution (key payload : List Nat) (hkey : key.length = 4) :
    maskApply key (maskApply key payload) = payload ∧
    ∀ i, i < payload.length →
      (maskApply key payload).getD i 0 = payload.getD i 0 ^^^ key.getD (i % 4) 0 := by
  refine ⟨maskApplyAux_involutive key 0 payload, ?_⟩
  intro i hi
  have := maskApplyAux_getD key 0 payload i hi
  simpa using this

/-- C2 witness: the involution at a concrete 4-byte key and payload. -/
theorem mask_involution_witness :
    ([1, 2, 3, 4] : List Nat).length = 4 ∧
    (maskApply [1, 2, 3, 4] (maskApply [1, 2, 3, 4] [10, 20, 30, 40, 50]) =
        [10, 20, 30, 40, 50] ∧
      ∀ i, i < ([10, 20, 30, 40, 50] : List Nat).length →
        (maskApply [1, 2, 3, 4] [10, 20, 30, 40, 50]).getD i 0 =
          ([10, 20, 30, 40, 50] : List Nat).getD i 0 ^^^
            ([1, 2, 3, 4] : List Nat).getD (i % 4) 0) :=
  ⟨by decide, mask_involution [1, 2, 3, 4] [10, 20, 30, 40, 50] (by decide)⟩

/-- Modelled from the spec: the states of the streaming UTF-8 validity
automaton.  The state records how many continuation bytes are still
expected and, for the boundary lead bytes E0, ED, F0, F4, the restricted
range of the first continuation byte that rules out overlong encodings,
surrogate halves and code points beyond U+10FFFF. -/
inductive Utf8State where
  | start
  | one
  | two
  | twoE0
  | twoED
  | three
  | threeF0
  | threeF4
  | bad
deriving DecidableEq, Repr

/-- Modelled from the spec: one transition of the streaming UTF-8
validator (RFC 3629 rules: rejects overlong encodings, surrogate halves
U+D800 to U+DFFF, and code points beyond U+10FFFF). -/
def utf8Step (s : Utf8State) (b : Nat) : Utf8State :=
  match s with
  | .bad => .bad
  | .start =>
    if b < 0x80 then .start
    else if b < 0xC2 then .bad
    else if b < 0xE0 then .one
    else if b = 0xE0 then .twoE0
    else if b = 0xED then .twoED
    else if b < 0xF0 then .two
    else if b = 0xF0 then .threeF0
    else if b < 0xF4 then .three
    else if b = 0xF4 then .threeF4
    else .bad
  | .one => if 0x80 ≤ b ∧ b < 0xC0 then .start else .bad
  | .two => if 0x80 ≤ b ∧ b < 0xC0 then .one else .bad
  | .twoE0 => if 0xA0 ≤ b ∧ b < 0xC0 then .one else .bad
  | .twoED => if 0x80 ≤ b ∧ b < 0xA0 then .one else .bad
  | .three => if 0x80 ≤ b ∧ b < 0xC0 then .two else .bad
  | .threeF0 => if 0x90 ≤ b ∧ b < 0xC0 then .two else .bad
  | .threeF4 => if 0x80 ≤ b ∧ b < 0x90 then .two else .bad

/-- Modelled from the spec: feeding a chunk of payload bytes to the
validator, carrying the partial-sequence state across calls. -/
def utf8Feed (s : Utf8State) (l : List Nat) : Utf8State :=
  l.foldl utf8Step s

/-- Standard RFC 3629 encoder for a code point, used to state the
validator claims about whole code-point ranges. -/
def utf8Encode (c : Nat) : List Nat :=
  if c < 0x80 then [c]
  else if c < 0x800 then [0xC0 + c / 64, 0x80 + c % 64]
  else if c < 0x10000 then [0xE0 + c / 4096, 0x80 + c / 64 % 64, 0x80 + c % 64]
  else [0xF0 + c / 262144, 0x80 + c / 4096 % 64, 0x80 + c / 64 % 64, 0x80 + c % 64]

theorem utf8Feed_bad (l : List Nat) : utf8Feed .bad l = .bad := by
  induction l with
  | nil => rfl
  | cons b rest ih => simpa [utf8Feed, utf8Step] using ih

theorem utf8Feed_append (s : Utf8State) (l1 l2 : List Nat) :
    utf8Feed (utf8Feed s l1) l2 = utf8Feed s (l1 ++ l2) := by
  simp [utf8Feed, List.foldl_append]

theorem utf8Feed_surrogate_bad (c : Nat) (h1 : 0xD800 ≤ c) (h2 : c ≤ 0xDFFF) :
    utf8Feed .start (utf8Encode c) = .bad := by
  have henc : utf8Encode c =
      [0xE0 + c / 4096, 0x80 + c / 64 % 64, 0x80 + c % 64] := by
    unfold utf8Encode
    rw [if_neg (by omega), if_neg (by omega), if_pos (by omega)]
  have hlead : 0xE0 + c / 4096 = 0xED := by omega
  have hcont : 0xA0 ≤ 0x80 + c / 64 % 64 := by omega
  rw [henc, hlead]
  show utf8Feed (utf8Step .start 0xED) _ = _
  have hstep : utf8Step .start 0xED = .twoED := by decide
  rw [show utf8Feed (utf8Step Utf8State.start 0xED)
        [0x80 + c / 64 % 64, 0x80 + c % 64] =
      utf8Feed (utf8Step (utf8Step Utf8State.start 0xED) (0x80 + c / 64 % 64))
        [0x80 + c % 64] from rfl]
  rw [hstep]
  have hstep2 : utf8Step .twoED (0x80 + c / 64 % 64) = .bad := by
    simp only [utf8Step]
    rw [if_neg (by omega)]
  rw [hstep2]
  exact utf8Feed_bad _

theorem utf8Feed_beyond_max_bad (c : Nat) (h1 : 0x10FFFF < c) (h2 : c ≤ 0x1FFFFF) :
    utf8Feed .start (utf8Encode c) = .bad := by
  have henc : utf8Encode c =
      [0xF0 + c / 262144, 0x80 + c / 4096 % 64, 0x80 + c / 64 % 64, 0x80 + c % 64] := by
    unfold utf8Encode
    rw [if_neg (by omega), if_neg (by omega), if_neg (by omega)]
  rw [henc]
  have hq : c / 262144 = 4 ∨ c / 262144 = 5 ∨ c / 262144 = 6 ∨ c / 262144 = 7 := by
    omega
  rcases hq with hq | hq | hq | hq
  · have hlead : 0xF0 + c / 262144 = 0xF4 := by omega
    have hcont : 0x90 ≤ 0x80 + c / 4096 % 64 := by omega
    rw [hlead]
    show utf8Feed (utf8Step (utf8Step .start 0xF4) (0x80 + c / 4096 % 64)) _ = _
    have hstep : utf8Step .start 0xF4 = .threeF4 := by decide
    rw [hstep]
    have hstep2 : utf8Step .threeF4 (0x80 + c / 4096 % 64) = .bad := by
      simp only [utf8Step]
      rw [if_neg (by omega)]
    rw [hstep2]
    exact utf8Feed_bad _
  · rw [show 0xF0 + c / 262144 = 0xF5 by omega]
    show utf8Feed (utf8Step .start 0xF5) _ = _
    rw [show utf8Step .start 0xF5 = .bad by decide]
    exact utf8Feed_bad _
  · rw [show 0xF0 + c / 262144 = 0xF6 by omega]
    show utf8Feed (utf8Step .start 0xF6) _ = _
    rw [show utf8Step .start 0xF6 = .bad by decide]
    exact utf8Feed_bad _
  · rw [show 0xF0 + c / 262144 = 0xF7 by omega]
    show utf8Feed (utf8Step .start 0xF7) _ = _
    rw [show utf8Step .start 0xF7 = .bad by decide]
    exact utf8Feed_bad _

/-- A code point is one of the spec's six boundary values. -/
def boundaryCodePoint (c : Nat) : Prop :=
  c = 0x0 ∨ c = 0x7F ∨ c = 0x800 ∨ c = 0xFFFF ∨ c = 0x10000 ∨ c = 0x10FFFF

instance (c : Nat) : Decidable (boundaryCodePoint c) := by
  unfold boundaryCodePoint
  infer_instance

/-- C6: the streaming UTF-8 validator rejects a lone continuation byte and
the overlong 2-byte encoding of the slash character, rejects every
surrogate-half code point and every 4-byte-encodable code point beyond
U+10FFFF, and accepts each boundary code point with its encoding split at
any byte offset across successive chunks. -/
theorem utf8_validator_correct :
    utf8Feed .start [0x80] = .bad ∧
    utf8Feed .start [0xC0, 0xAF] = .bad ∧
    (∀ c, 0xD800 ≤ c → c ≤ 0xDFFF → utf8Feed .start (utf8Encode c) = .bad) ∧
    (∀ c, 0x10FFFF < c → c ≤ 0x1FFFFF → utf8Feed .start (utf8Encode c) = .bad) ∧
    (∀ c, boundaryCodePoint c → ∀ i : Nat,
      utf8Feed (utf8Feed .start ((utf8Encode c).take i)) ((utf8Encode c).drop i) =
        .start) := by
  refine ⟨by decide, by decide, utf8Feed_surrogate_bad, utf8Feed_beyond_max_bad, ?_⟩
  intro c hc i
  rw [utf8Feed_append, List.take_append_drop]
  rcases hc with h | h | h | h | h | h <;> subst h <;> decide

/-- C6 witness: the surrogate range and the beyond-U+10FFFF range at
concrete code points. -/
theorem utf8_validator_correct_witness :
    (0xD800 : Nat) ≤ 0xD800 ∧ (0xD800 : Nat) ≤ 0xDFFF ∧
    (0x10FFFF : Nat) < 0x110000 ∧ (0x110000 : Nat) ≤ 0x1FFFFF ∧
    boundaryCodePoint 0x10FFFF ∧
    utf8Feed .start (utf8Encode 0xD800) = .bad ∧
    utf8Feed .start (utf8Encode 0x110000) = .bad ∧
    utf8Feed (utf8Feed .start ((utf8Encode 0x10FFFF).take 2))
      ((utf8Encode 0x10FFFF).drop 2) = .start :=
  ⟨by decide, by decide, by decide, by decide, by decide,
    utf8_validator_correct.2.2.1 0xD800 (by decide) (by decide),
    utf8_validator_correct.2.2.2.1 0x110000 (by decide) (by decide),
    utf8_validator_correct.2.2.2.2 0x10FFFF (by decide) 2⟩

/-- Modelled from the spec: the six frame opcodes. -/
inductive Opcode where
  | cont
  | text
  | binary
  | close
  | ping
  | pong
deriving DecidableEq, Repr

/-- Wire value of an opcode per RFC 6455. -/
def Opcode.toNat : Opcode → Nat
  | .cont => 0
  | .text => 1
  | .binary => 2
  | .close => 8
  | .ping => 9
  | .pong => 10

/-- Parses an opcode nibble; reserved opcode values have no representation. -/
def Opcode.ofNat? (n : Nat) : Option Opcode :=
  if n = 0 then some .cont
  else if n = 1 then some .text
  else if n = 2 then some .binary
  else if n = 8 then some .close
  else if n = 9 then some .ping
  else if n = 10 then some .pong
  else none

/-- Modelled from the spec: a single wire frame (fin flag, reserved bits,
opcode, payload bytes).  The masking key is not stored: it is consumed
during decode and generated during encode. -/
structure Frame where
  fin : Bool
  rsv : Nat
  opcode : Opcode
  payload : List Nat
deriving DecidableEq, Repr

/-- Connection role: client frames are masked, server frames are not. -/
inductive Role where
  | client
  | server
deriving DecidableEq, Repr

/-- Errors of the frame codec. -/
inductive DecodeErr where
  | protocolViolation
  | payloadTooLarge
deriving DecidableEq, Repr

/-- Result of a decode attempt: a full frame with the number of consumed
bytes, a request for more bytes, or an error. -/
inductive Decoded where
  | frame (f : Frame) (consumed : Nat)
  | needMore
  | err (e : DecodeErr)
deriving DecidableEq, Repr

/-- Big-endian value of a byte list. -/
def beVal : List Nat → Nat
  | [] => 0
  | b :: rest => b * 256 ^ rest.length + beVal rest

/-- Value of the 7-bit length field for a payload of n bytes (minimal
length encoding). -/
def lenField (n : Nat) : Nat :=
  if n < 126 then n else if n < 65536 then 126 else 127

/-- Extended length bytes for a payload of n bytes: none below 126, two
big-endian bytes below 65536, eight big-endian bytes otherwise. -/
def lenBytes (n : Nat) : List Nat :=
  if n < 126 then []
  else if n < 65536 then [n / 256 % 256, n % 256]
  else [n / 2 ^ 56 % 256, n / 2 ^ 48 % 256, n / 2 ^ 40 % 256, n / 2 ^ 32 % 256,
    n / 2 ^ 24 % 256, n / 2 ^ 16 % 256, n / 2 ^ 8 % 256, n % 256]

/-- Number of extended length bytes. -/
def lenExt (n : Nat) : Nat :=
  if n < 126 then 0 else if n < 65536 then 2 else 8

/-- Mask bit of the second header byte, set for client-originated frames. -/
def maskBit : Role → Nat
  | .client => 128
  | .server => 0

/-- Modelled from the spec: encode(role, frame) writes the 2-byte base
header, the minimal extended length, then for the client role the fresh
4-byte key followed by the masked payload, and for the server role the
payload unmasked.  The freshly drawn key is passed as an argument. -/
def encode (role : Role) (key : List Nat) (f : Frame) : List Nat :=
  let b0 := (if f.fin then 128 else 0) + f.rsv * 16 + f.opcode.toNat
  let b1 := maskBit role + lenField f.payload.length
  let body :=
    match role with
    | .client => key ++ maskApply key f.payload
    | .server => f.payload
  b0 :: b1 :: (lenBytes f.payload.length ++ body)

/-- Whether a decoder of the given role expects inbound frames masked: a
server receives client frames, which must be masked; a client receives
server frames, which must not be. -/
def expectMasked : Role → Bool
  | .client => false
  | .server => true

/-- Modelled from the spec: decode(buffer) parses the 2-byte base header,
the 7, 16 or 64-bit length field with a minimal-encoding check, the
4-byte mask key if the mask flag is set, then unmasks the payload.
Returns needMore while the buffer lacks a full frame, payloadTooLarge if
the declared length exceeds the configured maximum, protocolViolation on
nonzero RSV, non-minimal length encoding or mask-flag/role mismatch. -/
def decode (role : Role) (maxPayload : Nat) (buf : List Nat) : Decoded :=
  match buf with
  | b0 :: b1 :: rest =>
    match Opcode.ofNat? (b0 % 16) with
    | none => .err .protocolViolation
    | some op =>
      if b0 / 16 % 8 ≠ 0 then .err .protocolViolation
      else
        let masked := decide (128 ≤ b1)
        if masked ≠ expectMasked role then .err .protocolViolation
        else
          let len7 := b1 % 128
          let ext := if len7 = 126 then 2 else if len7 = 127 then 8 else 0
          if rest.length < ext then .needMore
          else
            let len := if len7 < 126 then len7 else beVal (rest.take ext)
            if len7 = 126 ∧ len < 126 then .err .protocolViolation
            else if len7 = 127 ∧ len < 65536 then .err .protocolViolation
            else if maxPayload < len then .err .payloadTooLarge
            else
              let keyLen := if masked then 4 else 0
              let rest2 := rest.drop ext
              if rest2.length < keyLen + len then .needMore
              else
                let mkey := rest2.take keyLen
                let raw := (rest2.drop keyLen).take len
                let payload := if masked then maskApply mkey raw else raw
                .frame ⟨decide (128 ≤ b0), b0 / 16 % 8, op, payload⟩
                  (2 + ext + keyLen + len)
  | _ => .needMore

theorem Opcode.toNat_le (op : Opcode) : op.toNat ≤ 10 := by
  cases op <;> decide

theorem Opcode.ofNat?_toNat (op : Opcode) : Opcode.ofNat? op.toNat = some op := by
  cases op <;> rfl

theorem lenBytes_length (n : Nat) : (lenBytes n).length = lenExt n := by
  unfold lenBytes lenExt
  split_ifs <;> rfl

theorem beVal_lenBytes (n : Nat) (h126 : 126 ≤ n) (h64 : n < 2 ^ 64) :
    beVal (lenBytes n) = n := by
  unfold lenBytes
  by_cases h : n < 65536
  · rw [if_neg (by omega), if_pos h]
    simp only [beVal, List.length_cons, List.length_nil]
    norm_num
    omega
  · rw [if_neg (by omega), if_neg h]
    simp only [beVal, List.length_cons, List.length_nil]
    norm_num
    omega

theorem lenField_lt (n : Nat) : lenField n < 128 := by
  unfold lenField
  split_ifs <;> omega

theorem lenExt_if (n : Nat) :
    (if lenField n = 126 then 2 else if lenField n = 127 then 8 else 0) = lenExt n := by
  unfold lenField lenExt
  split_ifs <;> omega

theorem decode_encode_client (max : Nat) (key : List Nat) (f : Frame)
    (hrsv : f.rsv = 0) (hkey : key.length = 4)
    (hmax : f.payload.length ≤ max) (h64 : f.payload.length < 2 ^ 64) :
    decode .server max (encode .client key f) =
      .frame ⟨f.fin, 0, f.opcode, f.payload⟩
        (2 + lenExt f.payload.length + 4 + f.payload.length) := by
  have ht := Opcode.toNat_le f.opcode
  have hml := maskApply_length key f.payload
  simp only [encode, maskBit, hrsv]
  simp only [decode]
  rw [show ((if f.fin then 128 else 0) + 0 * 16 + f.opcode.toNat) % 16 =
      f.opcode.toNat by cases f.fin <;> simp <;> omega]
  rw [Opcode.ofNat?_toNat]
  split
  next heq => exact Option.noConfusion heq
  next op heq =>
  injection heq with hop
  subst hop
  rw [if_neg (show ¬((if f.fin then 128 else 0) + 0 * 16 + f.opcode.toNat) / 16 % 8 ≠ 0 by
    cases f.fin <;> simp <;> omega)]
  rw [show (decide (128 ≤ 128 + lenField f.payload.length)) = true by
    simp]
  rw [if_neg (show ¬(true ≠ expectMasked Role.server) by simp [expectMasked])]
  rw [show (128 + lenField f.payload.length) % 128 = lenField f.payload.length by
    have := lenField_lt f.payload.length
    omega]
  rw [lenExt_if]
  rw [if_neg (show ¬(lenBytes f.payload.length ++
      (key ++ maskApply key f.payload)).length < lenExt f.payload.length by
    simp [lenBytes_length, hkey, hml])]
  have hbody : (lenBytes f.payload.length ++
      (key ++ maskApply key f.payload)).take (lenExt f.payload.length) =
      lenBytes f.payload.length := List.take_left' (lenBytes_length _)
  have hdropbody : (lenBytes f.payload.length ++
      (key ++ maskApply key f.payload)).drop (lenExt f.payload.length) =
      key ++ maskApply key f.payload := List.drop_left' (lenBytes_length _)
  rw [show (if lenField f.payload.length < 126 then lenField f.payload.length
      else beVal ((lenBytes f.payload.length ++
        (key ++ maskApply key f.payload)).take (lenExt f.payload.length))) =
      f.payload.length by
    by_cases hsmall : f.payload.length < 126
    · rw [if_pos (by unfold lenField; rw [if_pos hsmall]; omega)]
      unfold lenField
      rw [if_pos hsmall]
    · rw [if_neg (by unfold lenField; split_ifs <;> omega)]
      rw [hbody, beVal_lenBytes _ (by omega) h64]]
  rw [if_neg (show ¬(lenField f.payload.length = 126 ∧ f.payload.length < 126) by
    rintro ⟨h1, h2⟩; unfold lenField at h1; split_ifs at h1 <;> omega)]
  rw [if_neg (show ¬(lenField f.payload.length = 127 ∧ f.payload.length < 65536) by
    rintro ⟨h1, h2⟩; unfold lenField at h1; split_ifs at h1 <;> omega)]
  rw [if_neg (show ¬(max < f.payload.length) by omega)]
  simp only [if_pos rfl, if_true]
  rw [hdropbody]
  rw [if_neg (show ¬(key ++ maskApply key f.payload).length < 4 + f.payload.length by
    simp [hkey, hml])]
  rw [List.take_left' hkey, List.drop_left' hkey]
  rw [show (maskApply key f.payload).take f.payload.length = maskApply key f.payload by
    rw [← hml]; exact List.take_length _]
  rw [show maskApply key (maskApply key f.payload) = f.payload from
    maskApplyAux_involutive key 0 f.payload]
  rw [show (decide (128 ≤ (if f.fin then 128 else 0) + 0 * 16 + f.opcode.toNat)) = f.fin by
    cases f.fin <;> simp <;> omega]
  rw [show ((if f.fin then 128 else 0) + 0 * 16 + f.opcode.toNat) / 16 % 8 = 0 by
    cases f.fin <;> simp <;> omega]

theorem decode_encode_server (max : Nat) (key : List Nat) (f : Frame)
    (hrsv : f.rsv = 0)
    (hmax : f.payload.length ≤ max) (h64 : f.payload.length < 2 ^ 64) :
    decode .client max (encode .server key f) =
      .frame ⟨f.fin, 0, f.opcode, f.payload⟩
        (2 + lenExt f.payload.length + 0 + f.payload.length) := by
  have ht := Opcode.toNat_le f.opcode
  have hlf := lenField_lt f.payload.length
  simp only [encode, maskBit, hrsv]
  simp only [decode]
  rw [show ((if f.fin then 128 else 0) + 0 * 16 + f.opcode.toNat) % 16 =
      f.opcode.toNat by cases f.fin <;> simp <;> omega]
  rw [Opcode.ofNat?_toNat]
  split
  next heq => exact Option.noConfusion heq
  next op heq =>
  injection heq with hop
  subst hop
  rw [if_neg (show ¬((if f.fin then 128 else 0) + 0 * 16 + f.opcode.toNat) / 16 % 8 ≠ 0 by
    cases f.fin <;> simp <;> omega)]
  rw [show (decide (128 ≤ 0 + lenField f.payload.length)) = false by
    simp; omega]
  rw [if_neg (show ¬(false ≠ expectMasked Role.client) by simp [expectMasked])]
  rw [show (0 + lenField f.payload.length) % 128 = lenField f.payload.length by
    omega]
  rw [lenExt_if]
  rw [if_neg (show ¬(lenBytes f.payload.length ++ f.payload).length <
      lenExt f.payload.length by
    simp [lenBytes_length])]
  have hbody : (lenBytes f.payload.length ++ f.payload).take (lenExt f.payload.length) =
      lenBytes f.payload.length := List.take_left' (lenBytes_length _)
  have hdropbody : (lenBytes f.payload.length ++ f.payload).drop (lenExt f.payload.length) =
      f.payload := List.drop_left' (lenBytes_length _)
  rw [show (if lenField f.payload.length < 126 then lenField f.payload.length
      else beVal ((lenBytes f.payload.length ++ f.payload).take
        (lenExt f.payload.length))) = f.payload.length by
    by_cases hsmall : f.payload.length < 126
    · rw [if_pos (by unfold lenField; rw [if_pos hsmall]; omega)]
      unfold lenField
      rw [if_pos hsmall]
    · rw [if_neg (by unfold lenField; split_ifs <;> omega)]
      rw [hbody, beVal_lenBytes _ (by omega) h64]]
  rw [if_neg (show ¬(lenField f.payload.length = 126 ∧ f.payload.length < 126) by
    rintro ⟨h1, h2⟩; unfold lenField at h1; split_ifs at h1 <;> omega)]
  rw [if_neg (show ¬(lenField f.payload.length = 127 ∧ f.payload.length < 65536) by
    rintro ⟨h1, h2⟩; unfold lenField at h1; split_ifs at h1 <;> omega)]
  rw [if_neg (show ¬(max < f.payload.length) by omega)]
  simp only [Bool.false_eq_true, if_false]
  rw [hdropbody]
  rw [if_neg (show ¬f.payload.length < 0 + f.payload.length by omega)]
  rw [List.drop_zero, List.take_length]
  rw [show (decide (128 ≤ (if f.fin then 128 else 0) + 0 * 16 + f.opcode.toNat)) = f.fin by
    cases f.fin <;> simp <;> omega]
  rw [show ((if f.fin then 128 else 0) + 0 * 16 + f.opcode.toNat) / 16 % 8 = 0 by
    cases f.fin <;> simp <;> omega]

/-- C1: decoding the bytes produced by encoding a valid frame yields a
frame whose payload bytes are exactly the original payload bytes, for
both the client role (masked, decoded by a server) and the server role
(unmasked, decoded by a client). -/
theorem decode_encode_roundtrip (max : Nat) (key : List Nat) (f : Frame)
    (hrsv : f.rsv = 0) (hkey : key.length = 4)
    (hmax : f.payload.length ≤ max) (h64 : f.payload.length < 2 ^ 64) :
    (∃ k, decode .server max (encode .client key f) =
      .frame ⟨f.fin, 0, f.opcode, f.payload⟩ k) ∧
    (∃ k, decode .client max (encode .server key f) =
      .frame ⟨f.fin, 0, f.opcode, f.payload⟩ k) :=
  ⟨⟨_, decode_encode_client max key f hrsv hkey hmax h64⟩,
    ⟨_, decode_encode_server max key f hrsv hmax h64⟩⟩

/-- C1 witness: the round trip at a concrete frame and key. -/
theorem decode_encode_roundtrip_witness :
    (Frame.mk true 0 .text [72, 105]).rsv = 0 ∧
    ([7, 11, 13, 17] : List Nat).length = 4 ∧
    (Frame.mk true 0 .text [72, 105]).payload.length ≤ 200 ∧
    (Frame.mk true 0 .text [72, 105]).payload.length < 2 ^ 64 ∧
    ((∃ k, decode .server 200 (encode .client [7, 11, 13, 17]
        (Frame.mk true 0 .text [72, 105])) =
      .frame ⟨true, 0, .text, [72, 105]⟩ k) ∧
    (∃ k, decode .client 200 (encode .server [7, 11, 13, 17]
        (Frame.mk true 0 .text [72, 105])) =
      .frame ⟨true, 0, .text, [72, 105]⟩ k)) :=
  ⟨rfl, by decide, by decide, by decide,
    decode_encode_roundtrip 200 [7, 11, 13, 17] (Frame.mk true 0 .text [72, 105])
      rfl (by decide) (by decide) (by decide)⟩

/-- Modelled from the spec: the error kinds of the Error Classifier that
the frame path can produce. -/
inductive WsError where
  | protocolViolation
  | payloadTooLarge
  | invalidState
deriving DecidableEq, Repr

/-- Per-connection configuration: the maximum assembled payload size. -/
structure Config where
  maxPayload : Nat
deriving DecidableEq, Repr

/-- A reassembled message delivered to the embedder. -/
structure Msg where
  op : Opcode
  data : List Nat
deriving DecidableEq, Repr

/-- Control opcodes are close, ping and pong. -/
def Opcode.isCtrl : Opcode → Bool
  | .close => true
  | .ping => true
  | .pong => true
  | _ => false

/-- A frame is a data frame when its opcode is not a control opcode. -/
def isDataFrame (f : Frame) : Bool :=
  !f.opcode.isCtrl

/-- Modelled from the spec: one step of the Fragmentation/Reassembly
Buffer.  Control frames pass through without disturbing the in-progress
buffer.  A continuation appends to the in-progress message (protocol
violation if none is in progress); a text or binary frame starts one
(protocol violation if one is already in progress).  The cumulative size
is checked against the configured maximum on every append; the message is
emitted when fin is set. -/
def reasmStep (cfg : Config) (st : Option (Opcode × List Nat)) (f : Frame) :
    Except WsError (Option (Opcode × List Nat) × Option Msg) :=
  match f.opcode with
  | .close => .ok (st, none)
  | .ping => .ok (st, none)
  | .pong => .ok (st, none)
  | .cont =>
    match st with
    | none => .error .protocolViolation
    | some (op, acc) =>
      if cfg.maxPayload < acc.length + f.payload.length then .error .payloadTooLarge
      else if f.fin then .ok (none, some ⟨op, acc ++ f.payload⟩)
      else .ok (some (op, acc ++ f.payload), none)
  | op =>
    match st with
    | some _ => .error .protocolViolation
    | none =>
      if cfg.maxPayload < f.payload.length then .error .payloadTooLarge
      else if f.fin then .ok (none, some ⟨op, f.payload⟩)
      else .ok (some (op, f.payload), none)

/-- Feeding a sequence of decoded frames through the reassembly buffer,
collecting the emitted messages, stopping at the first error. -/
def feedFrames (cfg : Config) :
    Option (Opcode × List Nat) → List Frame →
      Except WsError (Option (Opcode × List Nat) × List Msg)
  | st, [] => .ok (st, [])
  | st, f :: rest =>
    match reasmStep cfg st f with
    | .error e => .error e
    | .ok (st', m) =>
      match feedFrames cfg st' rest with
      | .error e => .error e
      | .ok (stF, msgs) => .ok (stF, m.toList ++ msgs)

/-- The continuation frames of a fragmented message: every fragment is a
continuation, only the last has fin set. -/
def contFrames : List (List Nat) → List Frame
  | [] => []
  | [p] => [⟨true, 0, .cont, p⟩]
  | p :: q :: rest => ⟨false, 0, .cont, p⟩ :: contFrames (q :: rest)

/-- The frames of a message split into fragments: the first frame carries
the data opcode, the rest are continuations, only the last has fin set. -/
def fragFrames (op : Opcode) : List (List Nat) → List Frame
  | [] => []
  | [p] => [⟨true, 0, op, p⟩]
  | p :: q :: rest => ⟨false, 0, op, p⟩ :: contFrames (q :: rest)

theorem reasmStep_ctrl (cfg : Config) (st : Option (Opcode × List Nat)) (f : Frame)
    (h : f.opcode.isCtrl = true) : reasmStep cfg st f = .ok (st, none) := by
  unfold reasmStep
  cases hop : f.opcode <;> simp_all [Opcode.isCtrl]

theorem feed_all_ctrl (cfg : Config) :
    ∀ (frames : List Frame) (st : Option (Opcode × List Nat)),
      frames.filter isDataFrame = [] →
      feedFrames cfg st frames = .ok (st, []) := by
  intro frames
  induction frames with
  | nil => intro st _; rfl
  | cons f rest ih =>
    intro st hfil
    by_cases hd : isDataFrame f
    · rw [List.filter_cons_of_pos hd] at hfil
      exact absurd hfil (by simp)
    · rw [List.filter_cons_of_neg hd] at hfil
      have hctrl : f.opcode.isCtrl = true := by
        simpa [isDataFrame] using hd
      simp [feedFrames, reasmStep_ctrl cfg st f hctrl, ih st hfil]

theorem contFrames_ne_nil (parts : List (List Nat)) (h : parts ≠ []) :
    contFrames parts ≠ [] := by
  match parts with
  | [] => exact absurd rfl h
  | [p] => simp [contFrames]
  | p :: q :: rest => simp [contFrames]

theorem fragFrames_ne_nil (op : Opcode) (parts : List (List Nat)) (h : parts ≠ []) :
    fragFrames op parts ≠ [] := by
  match parts with
  | [] => exact absurd rfl h
  | [p] => simp [fragFrames]
  | p :: q :: rest => simp [fragFrames]

theorem feed_cont (cfg : Config) (op : Opcode) :
    ∀ (frames : List Frame) (acc : List Nat) (parts : List (List Nat)),
      parts ≠ [] →
      acc.length + parts.flatten.length ≤ cfg.maxPayload →
      frames.filter isDataFrame = contFrames parts →
      feedFrames cfg (some (op, acc)) frames =
        .ok (none, [⟨op, acc ++ parts.flatten⟩]) := by
  intro frames
  induction frames with
  | nil =>
    intro acc parts hne _ hfil
    exact absurd hfil.symm (contFrames_ne_nil parts hne)
  | cons f rest ih =>
    intro acc parts hne hsz hfil
    by_cases hd : isDataFrame f
    · rw [List.filter_cons_of_pos hd] at hfil
      match parts, hne with
      | [p], _ =>
        simp only [contFrames] at hfil
        obtain ⟨hf, hrest⟩ := List.cons_eq_cons.mp hfil
        subst hf
        have hsz' : acc.length + p.length ≤ cfg.maxPayload := by
          simpa using hsz
        have hstep : reasmStep cfg (some (op, acc)) ⟨true, 0, .cont, p⟩ =
            .ok (none, some ⟨op, acc ++ p⟩) := by
          simp only [reasmStep]
          rw [if_neg (by simp; omega)]
          simp
        simp [feedFrames, hstep, feed_all_ctrl cfg rest none hrest]
      | p :: q :: qs, _ =>
        simp only [contFrames] at hfil
        obtain ⟨hf, hrest⟩ := List.cons_eq_cons.mp hfil
        subst hf
        have hsz' : acc.length + p.length + q.length + qs.flatten.length ≤
            cfg.maxPayload := by
          simp only [List.flatten_cons, List.length_append] at hsz
          omega
        have hstep : reasmStep cfg (some (op, acc)) ⟨false, 0, .cont, p⟩ =
            .ok (some (op, acc ++ p), none) := by
          simp only [reasmStep]
          rw [if_neg (by simp; omega)]
          simp
        have hrec := ih (acc ++ p) (q :: qs) (by simp) (by
          simp only [List.flatten_cons, List.length_append]
          omega) hrest
        simp [feedFrames, hstep, hrec, List.append_assoc]
    · rw [List.filter_cons_of_neg hd] at hfil
      have hctrl : f.opcode.isCtrl = true := by
        simpa [isDataFrame] using hd
      simp [feedFrames, reasmStep_ctrl cfg _ f hctrl, ih acc parts hne hsz hfil]

/-- C5: a message split into N fragments, fed through the reassembly
buffer with arbitrary interleaved control frames, emits exactly one
message whose bytes equal the original payload. -/
theorem reassembly_roundtrip (cfg : Config) (op : Opcode)
    (parts : List (List Nat)) (frames : List Frame)
    (hop : op = .text ∨ op = .binary)
    (hne : parts ≠ [])
    (hsz : parts.flatten.length ≤ cfg.maxPayload)
    (hfil : frames.filter isDataFrame = fragFrames op parts) :
    feedFrames cfg none frames = .ok (none, [⟨op, parts.flatten⟩]) := by
  induction frames with
  | nil => exact absurd hfil.symm (fragFrames_ne_nil op parts hne)
  | cons f rest ih =>
    by_cases hd : isDataFrame f
    · rw [List.filter_cons_of_pos hd] at hfil
      match parts, hne, hsz with
      | [p], _, hsz =>
        simp only [fragFrames] at hfil
        obtain ⟨hf, hrest⟩ := List.cons_eq_cons.mp hfil
        subst hf
        have hsz' : p.length ≤ cfg.maxPayload := by
          simpa using hsz
        have hstep : reasmStep cfg none ⟨true, 0, op, p⟩ =
            .ok (none, some ⟨op, p⟩) := by
          rcases hop with h | h <;> subst h <;>
            · simp only [reasmStep]
              rw [if_neg (by simp; omega)]
              simp
        simp [feedFrames, hstep, feed_all_ctrl cfg rest none hrest]
      | p :: q :: qs, _, hsz =>
        simp only [fragFrames] at hfil
        obtain ⟨hf, hrest⟩ := List.cons_eq_cons.mp hfil
        subst hf
        have hsz' : p.length + q.length + qs.flatten.length ≤ cfg.maxPayload := by
          simp only [List.flatten_cons, List.length_append] at hsz
          omega
        have hstep : reasmStep cfg none ⟨false, 0, op, p⟩ =
            .ok (some (op, p), none) := by
          rcases hop with h | h <;> subst h <;>
            · simp only [reasmStep]
              rw [if_neg (by simp; omega)]
              simp
        have hrec := feed_cont cfg op rest p (q :: qs) (by simp) (by
          simp only [List.flatten_cons, List.length_append]
          omega) hrest
        simp [feedFrames, hstep, hrec]
    · rw [List.filter_cons_of_neg hd] at hfil
      have hctrl : f.opcode.isCtrl = true := by
        simpa [isDataFrame] using hd
      simp [feedFrames, reasmStep_ctrl cfg _ f hctrl, ih hfil]

/-- C5 witness: a three-fragment text message with a ping interleaved. -/
theorem reassembly_roundtrip_witness :
    (Opcode.text = Opcode.text ∨ Opcode.text = Opcode.binary) ∧
    ([[1, 2], [3], [4, 5]] : List (List Nat)) ≠ [] ∧
    ([[1, 2], [3], [4, 5]] : List (List Nat)).flatten.length ≤ (Config.mk 100).maxPayload ∧
    ([⟨false, 0, .text, [1, 2]⟩, ⟨true, 0, .ping, [9]⟩, ⟨false, 0, .cont, [3]⟩,
        ⟨true, 0, .cont, [4, 5]⟩] : List Frame).filter isDataFrame =
      fragFrames .text [[1, 2], [3], [4, 5]] ∧
    feedFrames (Config.mk 100) none
        [⟨false, 0, .text, [1, 2]⟩, ⟨true, 0, .ping, [9]⟩, ⟨false, 0, .cont, [3]⟩,
          ⟨true, 0, .cont, [4, 5]⟩] =
      .ok (none, [⟨.text, [1, 2, 3, 4, 5]⟩]) := by
  refine ⟨Or.inl rfl, by decide, by decide, by decide, ?_⟩
  have h := reassembly_roundtrip (Config.mk 100) .text [[1, 2], [3], [4, 5]]
    [⟨false, 0, .text, [1, 2]⟩, ⟨true, 0, .ping, [9]⟩, ⟨false, 0, .cont, [3]⟩,
      ⟨true, 0, .cont, [4, 5]⟩]
    (Or.inl rfl) (by decide) (by decide) (by decide)
  simpa using h

/-- Modelled from the spec: the connection states CONNECTING, OPEN,
CLOSING, CLOSED of the Connection State Machine. -/
inductive ConnState where
  | connecting
  | opened
  | closing
  | closed
deriving DecidableEq, Repr

/-- Modelled from the spec: the per-connection engine state the frame
path needs: the state machine state, the in-progress reassembly buffer
and the configuration. -/
structure Conn where
  state : ConnState
  reasm : Option (Opcode × List Nat)
  cfg : Config
deriving DecidableEq, Repr

/-- Events the engine raises towards the embedder or the transport while
processing one inbound frame. -/
inductive Event where
  | onMessage (m : Msg)
  | onError (e : WsError)
  | onClose (code : Nat)
  | sendFrame (f : Frame)
deriving DecidableEq, Repr

/-- Modelled from the spec: processing of one decoded inbound frame by
the Connection State Machine and Control Frame Handler.  In CLOSED no
frame is processed.  A control frame longer than 125 bytes is a protocol
violation.  A ping is answered with a pong echoing the identical payload
unless the connection is already CLOSING; a pong only updates statistics;
a close echoes a close frame unless this endpoint already initiated
closing, transitions to CLOSED and reports the peer code (1005 when the
close payload carries no status code).  Data frames go through the
reassembly buffer; any reassembly error forces CLOSED without delivering
a message. -/
def handleFrame (c : Conn) (f : Frame) : Conn × List Event :=
  if c.state = .closed then (c, [])
  else if f.opcode.isCtrl then
    if 125 < f.payload.length then
      ({ c with state := .closed, reasm := none },
        [.onError .protocolViolation, .onClose 1002])
    else
      match f.opcode with
      | .ping =>
        if c.state = .closing then (c, [])
        else (c, [.sendFrame ⟨true, 0, .pong, f.payload⟩])
      | .pong => (c, [])
      | _ =>
        let code :=
          match f.payload with
          | b0 :: b1 :: _ => b0 * 256 + b1
          | _ => 1005
        if c.state = .closing then ({ c with state := .closed }, [.onClose code])
        else ({ c with state := .closed },
          [.sendFrame ⟨true, 0, .close, f.payload⟩, .onClose code])
  else
    match reasmStep c.cfg c.reasm f with
    | .error .payloadTooLarge =>
      ({ c with state := .closed, reasm := none },
        [.onError .payloadTooLarge, .onClose 1009])
    | .error e =>
      ({ c with state := .closed, reasm := none }, [.onError e, .onClose 1002])
    | .ok (st', some m) => ({ c with reasm := st' }, [.onMessage m])
    | .ok (st', none) => ({ c with reasm := st' }, [])

/-- Modelled from the spec: sending a message is only legal while the
connection is OPEN; afterwards send attempts fail with InvalidState. -/
def sendMessage (c : Conn) (m : Msg) : Except WsError (Conn × List Frame) :=
  if c.state = .opened then .ok (c, [⟨true, 0, m.op, m.data⟩])
  else .error .invalidState

/-- C9: CLOSED is terminal: a connection in the CLOSED state processes no
further inbound frame (state and buffer unchanged, no events raised) and
every subsequent send attempt fails with InvalidState. -/
theorem closed_terminal (c : Conn) (f : Frame) (m : Msg)
    (h : c.state = .closed) :
    handleFrame c f = (c, []) ∧ sendMessage c m = .error .invalidState := by
  constructor
  · unfold handleFrame
    rw [if_pos h]
  · unfold sendMessage
    rw [if_neg (by rw [h]; intro hc; exact ConnState.noConfusion hc)]

/-- C9 witness: the terminal behaviour at a concrete closed connection. -/
theorem closed_terminal_witness :
    (Conn.mk .closed none (Config.mk 64)).state = .closed ∧
    (handleFrame (Conn.mk .closed none (Config.mk 64)) ⟨true, 0, .ping, [1]⟩ =
        (Conn.mk .closed none (Config.mk 64), []) ∧
      sendMessage (Conn.mk .closed none (Config.mk 64)) ⟨.text, [65]⟩ =
        .error .invalidState) :=
  ⟨rfl, closed_terminal (Conn.mk .closed none (Config.mk 64))
    ⟨true, 0, .ping, [1]⟩ ⟨.text, [65]⟩ rfl⟩

/-- C7: a ping of at most 125 payload bytes on a connection that is
neither CLOSING nor CLOSED is answered by a pong with the identical
payload; a ping longer than 125 bytes is a protocol violation that closes
the connection. -/
theorem ping_pong_echo (c : Conn) (f : Frame) (hop : f.opcode = .ping) :
    (f.payload.length ≤ 125 → c.state ≠ .closing → c.state ≠ .closed →
      handleFrame c f = (c, [.sendFrame ⟨true, 0, .pong, f.payload⟩])) ∧
    (125 < f.payload.length → c.state ≠ .closed →
      handleFrame c f = ({ c with state := .closed, reasm := none },
        [.onError .protocolViolation, .onClose 1002])) := by
  constructor
  · intro hlen hclosing hclosed
    unfold handleFrame
    rw [if_neg hclosed, if_pos (by rw [hop]; rfl), if_neg (by omega)]
    simp only [hop]
    rw [if_neg hclosing]
  · intro hlen hclosed
    unfold handleFrame
    rw [if_neg hclosed, if_pos (by rw [hop]; rfl), if_pos hlen]

/-- C7 witness: ping echo and oversized ping at concrete inputs. -/
theorem ping_pong_echo_witness :
    (Frame.mk true 0 .ping [7, 8]).opcode = .ping ∧
    (((Frame.mk true 0 .ping [7, 8]).payload.length ≤ 125 →
        (Conn.mk .opened none (Config.mk 64)).state ≠ .closing →
        (Conn.mk .opened none (Config.mk 64)).state ≠ .closed →
        handleFrame (Conn.mk .opened none (Config.mk 64))
            (Frame.mk true 0 .ping [7, 8]) =
          (Conn.mk .opened none (Config.mk 64),
            [.sendFrame ⟨true, 0, .pong, [7, 8]⟩])) ∧
      (125 < (Frame.mk true 0 .ping [7, 8]).payload.length →
        (Conn.mk .opened none (Config.mk 64)).state ≠ .closed →
        handleFrame (Conn.mk .opened none (Config.mk 64))
            (Frame.mk true 0 .ping [7, 8]) =
          ({ Conn.mk .opened none (Config.mk 64) with
              state := .closed, reasm := none },
            [.onError .protocolViolation, .onClose 1002]))) :=
  ⟨rfl, ping_pong_echo (Conn.mk .opened none (Config.mk 64))
    (Frame.mk true 0 .ping [7, 8]) rfl⟩

/-- Size of the in-progress reassembly buffer. -/
def reasmSize : Option (Opcode × List Nat) → Nat
  | none => 0
  | some (_, acc) => acc.length

/-- Whether the reassembly buffer accepts a data opcode, i.e. the append
is legal: a continuation while a message is in progress, or a fresh text
or binary frame while none is. -/
def reasmAccepts : Option (Opcode × List Nat) → Opcode → Bool
  | some _, .cont => true
  | none, .text => true
  | none, .binary => true
  | _, _ => false

/-- C8: when appending a data-frame payload would push the assembled size
beyond the configured maximum, the reassembly step yields PayloadTooLarge,
the connection closes, and no message is delivered. -/
theorem reasm_overflow_closes (c : Conn) (f : Frame)
    (hopen : c.state = .opened)
    (hacc : reasmAccepts c.reasm f.opcode = true)
    (hover : c.cfg.maxPayload < reasmSize c.reasm + f.payload.length) :
    reasmStep c.cfg c.reasm f = .error .payloadTooLarge ∧
    (handleFrame c f).1.state = .closed ∧
    Event.onError .payloadTooLarge ∈ (handleFrame c f).2 ∧
    ∀ m, Event.onMessage m ∉ (handleFrame c f).2 := by
  have hstep : reasmStep c.cfg c.reasm f = .error .payloadTooLarge := by
    rcases hst : c.reasm with _ | ⟨aop, adata⟩ <;> cases hopc : f.opcode <;>
      rw [hst, hopc] at hacc <;> simp only [reasmAccepts, Bool.false_eq_true] at hacc <;>
      simp only [reasmStep, hopc, hst, reasmSize] at hover ⊢ <;>
      rw [if_pos (by omega)]
  have hnotctrl : f.opcode.isCtrl = false := by
    rcases hst : c.reasm with _ | ⟨aop, adata⟩ <;> cases hopc : f.opcode <;>
      rw [hst, hopc] at hacc <;> simp only [reasmAccepts, Bool.false_eq_true] at hacc <;>
      simp [Opcode.isCtrl]
  have hmain : handleFrame c f =
      ({ c with state := .closed, reasm := none },
        [.onError .payloadTooLarge, .onClose 1009]) := by
    unfold handleFrame
    rw [if_neg (by rw [hopen]; intro hc; exact ConnState.noConfusion hc)]
    rw [if_neg (by rw [hnotctrl]; exact Bool.false_ne_true)]
    rw [hstep]
  rw [hmain]
  refine ⟨hstep, rfl, by simp, ?_⟩
  intro m hm
  simp at hm

/-- C8 witness: overflowing append at a concrete connection and frame. -/
theorem reasm_overflow_closes_witness :
    (Conn.mk .opened (some (.text, [1, 2, 3])) (Config.mk 4)).state = .opened ∧
    reasmAccepts (Conn.mk .opened (some (.text, [1, 2, 3])) (Config.mk 4)).reasm
      (Frame.mk true 0 .cont [4, 5]).opcode = true ∧
    (Conn.mk .opened (some (.text, [1, 2, 3])) (Config.mk 4)).cfg.maxPayload <
      reasmSize (Conn.mk .opened (some (.text, [1, 2, 3])) (Config.mk 4)).reasm +
        (Frame.mk true 0 .cont [4, 5]).payload.length ∧
    (reasmStep (Conn.mk .opened (some (.text, [1, 2, 3])) (Config.mk 4)).cfg
        (Conn.mk .opened (some (.text, [1, 2, 3])) (Config.mk 4)).reasm
        (Frame.mk true 0 .cont [4, 5]) = .error .payloadTooLarge ∧
      (handleFrame (Conn.mk .opened (some (.text, [1, 2, 3])) (Config.mk 4))
          (Frame.mk true 0 .cont [4, 5])).1.state = .closed ∧
      Event.onError .payloadTooLarge ∈
        (handleFrame (Conn.mk .opened (some (.text, [1, 2, 3])) (Config.mk 4))
          (Frame.mk true 0 .cont [4, 5])).2 ∧
      ∀ m, Event.onMessage m ∉
        (handleFrame (Conn.mk .opened (some (.text, [1, 2, 3])) (Config.mk 4))
          (Frame.mk true 0 .cont [4, 5])).2) :=
  ⟨rfl, by decide, by decide,
    reasm_overflow_closes (Conn.mk .opened (some (.text, [1, 2, 3])) (Config.mk 4))
      (Frame.mk true 0 .cont [4, 5]) rfl (by decide) (by decide)⟩

/-- OpenSSL constant SSL_ERROR_WANT_READ. -/
def SSL_ERROR_WANT_READ : Nat := 2

/-- OpenSSL constant SSL_ERROR_WANT_WRITE. -/
def SSL_ERROR_WANT_WRITE : Nat := 3

/-- Linux errno value EINTR, interrupted system call. -/
def EINTR : Nat := 4

/-- Linux errno value EAGAIN, operation would block. -/
def EAGAIN : Nat := 11

/-- Modelled from the spec: the close code 1006 for abnormal closure; the
header defining WS_STATUS_ABNORMAL is not among the sources, the spec
fixes end-of-stream without a close frame to 1006. -/
def WS_STATUS_ABNORMAL : Nat := 1006

/-- One scripted result of ws_read: a nonnegative byte count, where 0
encodes end of stream, or a failure carrying the code the loop inspects
(the SSL_get_error value on a TLS transport, errno on a plain socket). -/
inductive ReadRes where
  | ok (n : Nat)
  | fail (code : Nat)
deriving DecidableEq, Repr

/-- The two error strings ws_client_run passes to on_error. -/
inductive ErrMsg where
  | sslReadError
  | readError
deriving DecidableEq, Repr

/-- Trace events of the client loop: a ws_consume call, recording the
connection state observed at the top of the iteration together with the
byte count, an on_error callback, or an on_close callback with its close
code. -/
inductive RunEvent (σ : Type) where
  | consume (st : σ) (n : Nat)
  | onError (m : ErrMsg)
  | onClose (code : Nat)
deriving DecidableEq, Repr

/-- Why the loop of ws_client_run terminated in the model: the state
became CLOSED, a non-retryable read failure, end of stream, or the read
script was exhausted (the real loop would block on the next ws_read). -/
inductive StopReason where
  | stateClosed
  | readError
  | endOfStream
  | scriptEnd
deriving DecidableEq, Repr

/-- Embedding of ws_client_run (src/src/ws_client_lib.c): while the state
is not CLOSED, read; on a negative result retry on SSL_ERROR_WANT_READ or
SSL_ERROR_WANT_WRITE when TLS is active, retry on EINTR otherwise, else
report on_error and stop; on a zero result report on_close with
WS_STATUS_ABNORMAL and stop; otherwise hand the bytes to ws_consume.  The
engine state is abstract: consume is the state transformer of ws_consume
and isClosed observes whether the state is CLOSED. -/
def wsClientRun {σ : Type} (consume : σ → Nat → σ) (isClosed : σ → Bool)
    (useSsl : Bool) : σ → List ReadRes → List (RunEvent σ) × σ × StopReason
  | s, [] =>
    if isClosed s then ([], s, .stateClosed) else ([], s, .scriptEnd)
  | s, r :: rest =>
    if isClosed s then ([], s, .stateClosed)
    else
      match r with
      | .fail code =>
        if useSsl then
          if code = SSL_ERROR_WANT_READ ∨ code = SSL_ERROR_WANT_WRITE then
            wsClientRun consume isClosed useSsl s rest
          else ([.onError .sslReadError], s, .readError)
        else
          if code = EINTR then wsClientRun consume isClosed useSsl s rest
          else ([.onError .readError], s, .readError)
      | .ok 0 => ([.onClose WS_STATUS_ABNORMAL], s, .endOfStream)
      | .ok (n + 1) =>
        let r2 := wsClientRun consume isClosed useSsl (consume s (n + 1)) rest
        (.consume s (n + 1) :: r2.1, r2.2)

/-- Read failure codes that ws_client_run retries: WANT_READ and
WANT_WRITE when TLS is active, EINTR on a plain socket. -/
def retryable : Bool → Nat → Bool
  | true, code =>
    decide (code = SSL_ERROR_WANT_READ) || decide (code = SSL_ERROR_WANT_WRITE)
  | false, code => decide (code = EINTR)

/-- Byte-count bound the ws_read contract guarantees: at most the 4096
bytes of the stack buffer. -/
def readCap : ReadRes → Bool
  | .ok n => decide (n ≤ 4096)
  | .fail _ => true

/-- C3: whenever the loop of ws_client_run stops because the transport
reached end of stream (before any close frame closed the connection, else
the loop would have stopped at the top with state CLOSED), the trace ends
with the on_close callback carrying close code 1006 and every earlier
event is a ws_consume call: no other close or error is reported. -/
theorem eof_closes_abnormal {σ : Type} (consume : σ → Nat → σ)
    (isClosed : σ → Bool) (useSsl : Bool) :
    ∀ (script : List ReadRes) (s : σ),
      (wsClientRun consume isClosed useSsl s script).2.2 = .endOfStream →
      ∃ evs, (wsClientRun consume isClosed useSsl s script).1 =
          evs ++ [.onClose WS_STATUS_ABNORMAL] ∧
        ∀ e ∈ evs, ∃ st n, e = RunEvent.consume st n := by
  intro script
  induction script with
  | nil =>
    intro s h
    by_cases hc : isClosed s = true <;>
      simp [wsClientRun, hc] at h
  | cons r rest ih =>
    intro s h
    by_cases hc : isClosed s = true
    · simp [wsClientRun, hc] at h
    · match r with
      | .fail code =>
        by_cases hs : useSsl = true
        · by_cases hw : code = SSL_ERROR_WANT_READ ∨ code = SSL_ERROR_WANT_WRITE
          · rw [show wsClientRun consume isClosed useSsl s (.fail code :: rest) =
                wsClientRun consume isClosed useSsl s rest by
              simp [wsClientRun, hc, hs, hw]] at h ⊢
            exact ih s h
          · simp [wsClientRun, hc, hs, hw] at h
        · replace hs : useSsl = false := by simpa using hs
          by_cases hw : code = EINTR
          · rw [show wsClientRun consume isClosed useSsl s (.fail code :: rest) =
                wsClientRun consume isClosed useSsl s rest by
              simp [wsClientRun, hc, hs, hw]] at h ⊢
            exact ih s h
          · simp [wsClientRun, hc, hs, hw] at h
      | .ok 0 =>
        refine ⟨[], ?_, by simp⟩
        simp [wsClientRun, hc]
      | .ok (n + 1) =>
        have hrun : wsClientRun consume isClosed useSsl s (.ok (n + 1) :: rest) =
            (RunEvent.consume s (n + 1) ::
              (wsClientRun consume isClosed useSsl (consume s (n + 1)) rest).1,
              (wsClientRun consume isClosed useSsl (consume s (n + 1)) rest).2) := by
          simp [wsClientRun, hc]
        rw [hrun] at h ⊢
        obtain ⟨evs, hevs, hall⟩ := ih (consume s (n + 1)) h
        refine ⟨RunEvent.consume s (n + 1) :: evs, by simp [hevs], ?_⟩
        intro e he
        rcases List.mem_cons.mp he with he | he
        · exact ⟨s, n + 1, he⟩
        · exact hall e he

/-- C3 witness: end of stream on an open connection reports close code
1006 and stops. -/
theorem eof_closes_abnormal_witness :
    (wsClientRun (fun (s : Bool) _ => s) (fun s => s) false false
        [.ok 0]).2.2 = .endOfStream ∧
    ∃ evs, (wsClientRun (fun (s : Bool) _ => s) (fun s => s) false false
        [.ok 0]).1 = evs ++ [.onClose WS_STATUS_ABNORMAL] ∧
      ∀ e ∈ evs, ∃ st n, e = RunEvent.consume st n :=
  ⟨rfl, eof_closes_abnormal (fun (s : Bool) _ => s) (fun s => s) false
    [.ok 0] false rfl⟩

/-- C4 counterexample: on a plain socket, a would-block read failure
(errno EAGAIN) is not retried by ws_client_run: it surfaces through
on_error and terminates the loop, refuting the claim that every
would-block condition is retried and never becomes a connection
failure on both transports. -/
theorem plain_would_block_not_retried :
    wsClientRun (fun (s : Bool) _ => s) (fun s => s) false false
        [.fail EAGAIN] =
      ([.onError .readError], false, .readError) := by
  rfl

/-- C4 amended: every read failure the code classifies as transient
(WANT_READ or WANT_WRITE when TLS is active, EINTR on a plain socket) is
retried by the loop: the run continues with the remaining reads, with no
on_error and no termination caused by the failure. -/
theorem transient_read_retried {σ : Type} (consume : σ → Nat → σ)
    (isClosed : σ → Bool) (useSsl : Bool) (s : σ) (code : Nat)
    (rest : List ReadRes)
    (hopen : isClosed s = false)
    (hretry : retryable useSsl code = true) :
    wsClientRun consume isClosed useSsl s (.fail code :: rest) =
      wsClientRun consume isClosed useSsl s rest := by
  cases hs : useSsl
  · rw [hs] at hretry
    simp only [retryable, decide_eq_true_eq] at hretry
    simp [wsClientRun, hopen, hretry]
  · rw [hs] at hretry
    simp only [retryable, Bool.or_eq_true, decide_eq_true_eq] at hretry
    simp [wsClientRun, hopen, hretry]

/-- C4 amended witness: EINTR on a plain socket and WANT_READ on TLS are
both retried at concrete inputs. -/
theorem transient_read_retried_witness :
    ((fun (s : Bool) => s) false) = false ∧
    retryable false EINTR = true ∧
    wsClientRun (fun (s : Bool) _ => s) (fun s => s) false false
        [.fail EINTR, .ok 0] =
      wsClientRun (fun (s : Bool) _ => s) (fun s => s) false false [.ok 0] :=
  ⟨rfl, by decide, transient_read_retried (fun (s : Bool) _ => s) (fun s => s)
    false false EINTR [.ok 0] rfl (by decide)⟩

/-- C10: ws_consume is invoked only with a byte count between 1 and 4096
(under the ws_read contract that a read returns at most the 4096-byte
buffer size) and only with the connection state observed not CLOSED at
the top of the loop iteration; a read returning 0 or a non-retryable
failure terminates the loop immediately without calling ws_consume. -/
theorem consume_call_invariant {σ : Type} (consume : σ → Nat → σ)
    (isClosed : σ → Bool) (useSsl : Bool) :
    (∀ (script : List ReadRes) (s : σ),
      (∀ r ∈ script, readCap r = true) →
      ∀ st n, RunEvent.consume st n ∈
          (wsClientRun consume isClosed useSsl s script).1 →
        1 ≤ n ∧ n ≤ 4096 ∧ isClosed st = false) ∧
    (∀ (s : σ) (rest : List ReadRes), isClosed s = false →
      wsClientRun consume isClosed useSsl s (.ok 0 :: rest) =
        ([.onClose WS_STATUS_ABNORMAL], s, .endOfStream) ∧
      ∀ code, retryable useSsl code = false →
        wsClientRun consume isClosed useSsl s (.fail code :: rest) =
          ([.onError (if useSsl then .sslReadError else .readError)], s,
            .readError)) := by
  constructor
  · intro script
    induction script with
    | nil =>
      intro s _ st n hmem
      by_cases hc : isClosed s = true <;> simp [wsClientRun, hc] at hmem
    | cons r rest ih =>
      intro s hcap st n hmem
      have hcaprest : ∀ r ∈ rest, readCap r = true := by
        intro x hx
        exact hcap x (List.mem_cons_of_mem r hx)
      by_cases hc : isClosed s = true
      · simp [wsClientRun, hc] at hmem
      · match r with
        | .fail code =>
          by_cases hs : useSsl = true
          · by_cases hw : code = SSL_ERROR_WANT_READ ∨ code = SSL_ERROR_WANT_WRITE
            · rw [show wsClientRun consume isClosed useSsl s (.fail code :: rest) =
                  wsClientRun consume isClosed useSsl s rest by
                simp [wsClientRun, hc, hs, hw]] at hmem
              exact ih s hcaprest st n hmem
            · simp [wsClientRun, hc, hs, hw] at hmem
          · replace hs : useSsl = false := by simpa using hs
            by_cases hw : code = EINTR
            · rw [show wsClientRun consume isClosed useSsl s (.fail code :: rest) =
                  wsClientRun consume isClosed useSsl s rest by
                simp [wsClientRun, hc, hs, hw]] at hmem
              exact ih s hcaprest st n hmem
            · simp [wsClientRun, hc, hs, hw] at hmem
        | .ok 0 => simp [wsClientRun, hc] at hmem
        | .ok (k + 1) =>
          have hk : k + 1 ≤ 4096 := by
            have := hcap (.ok (k + 1)) (List.mem_cons_self _ _)
            simpa [readCap] using this
          have hrun : wsClientRun consume isClosed useSsl s (.ok (k + 1) :: rest) =
              (RunEvent.consume s (k + 1) ::
                (wsClientRun consume isClosed useSsl (consume s (k + 1)) rest).1,
                (wsClientRun consume isClosed useSsl (consume s (k + 1)) rest).2) := by
            simp [wsClientRun, hc]
          rw [hrun] at hmem
          rcases List.mem_cons.mp hmem with he | he
          · injection he with h1 h2
            subst h1
            subst h2
            exact ⟨by omega, hk, by simpa using hc⟩
          · exact ih (consume s (k + 1)) hcaprest st n he
  · intro s rest hopen
    constructor
    · simp [wsClientRun, hopen]
    · intro code hnr
      cases hs : useSsl
      · rw [hs] at hnr
        simp only [retryable, decide_eq_false_iff_not] at hnr
        simp [wsClientRun, hopen, hnr]
      · rw [hs] at hnr
        simp only [retryable, Bool.or_eq_false_iff, decide_eq_false_iff_not] at hnr
        simp [wsClientRun, hopen, hnr.1, hnr.2]

/-- C10 witness: the invariant at a concrete script exercising a consume,
an end of stream and a non-retryable failure. -/
theorem consume_call_invariant_witness :
    ((∀ r ∈ ([.ok 3, .ok 0] : List ReadRes), readCap r = true) ∧
      ∀ st n, RunEvent.consume st n ∈
          (wsClientRun (fun (s : Bool) _ => s) (fun s => s) false false
            [.ok 3, .ok 0]).1 →
        1 ≤ n ∧ n ≤ 4096 ∧ (fun (s : Bool) => s) st = false) ∧
    (((fun (s : Bool) => s) false) = false ∧
      wsClientRun (fun (s : Bool) _ => s) (fun s => s) false false
          (.ok 0 :: [.ok 3]) =
        ([.onClose WS_STATUS_ABNORMAL], false, .endOfStream) ∧
      ∀ code, retryable false code = false →
        wsClientRun (fun (s : Bool) _ => s) (fun s => s) false false
            (.fail code :: [.ok 3]) =
          ([.onError (if false then .sslReadError else .readError)], false,
            .readError)) :=
  ⟨⟨by decide,
      (consume_call_invariant (fun (s : Bool) _ => s) (fun s => s) false).1
        [.ok 3, .ok 0] false (by decide)⟩,
    ⟨rfl,
      (consume_call_invariant (fun (s : Bool) _ => s) (fun s => s) false).2
        false [.ok 3] rfl⟩⟩

end LibWS
